import Mathlib

/-!
# Verification of the taxi dispatch core (`src/taxi_app.py`)

Shallow embedding of the `TaxiApp` class. Modelling conventions:

* Python `float` coordinates are modelled by exact rationals `ℚ`; the
  real-valued quantities produced by `math.hypot` (square roots) live in `ℝ`.
* Python's insertion-ordered `dict` collections (`riders`, `drivers`,
  `rides`), which are always keyed by the entity's own `id` field, are
  modelled as lists in insertion order; `dict.get(key)` becomes
  `List.find?` on the `id` field (ids are unique in every reachable state).
* Python mutates `Driver` objects in place, and a `Ride` aliases the driver
  object stored in the `drivers` dict.  The embedding therefore stores the
  driver's (and rider's) id inside the ride and routes every read or write
  of `ride.driver` through the authoritative `drivers` collection, which is
  exactly the aliasing behaviour of the source.
* Every `print(...)` statement of the core is modelled as an emitted
  `Event`; each constructor corresponds to one print statement of the
  source, carrying the interpolated data.  Methods return their Python
  return value, the post-state, and the list of emitted events.
-/

namespace TaxiProgram

/-- `Rider` dataclass: `id`, `name`. Immutable after creation. -/
structure Rider where
  id : ℕ
  name : String
deriving DecidableEq, Repr

/-- `Driver` dataclass: `id`, `name`, position `x`,`y`, `available` flag
(default `True` at construction). -/
structure Driver where
  id : ℕ
  name : String
  x : ℚ
  y : ℚ
  available : Bool
deriving DecidableEq, Repr

/-- `Ride` dataclass.  The source stores object references `rider : Rider`
and `driver : Driver`; since drivers are mutated in place and shared with
the `drivers` dict, the embedding stores the ids (`riderId`, `driverId`)
and reads the entities through the state (see module docstring). -/
structure Ride where
  id : ℕ
  riderId : ℕ
  driverId : ℕ
  start_x : ℚ
  start_y : ℚ
  dest_x : ℚ
  dest_y : ℚ
  fare : ℝ
  completed : Bool

/-- One `Event` per `print` statement in the core methods of the source. -/
inductive Event where
  | registeredRider (name : String) (id : ℕ)
  | registeredDriver (name : String) (id : ℕ) (x y : ℚ)
  | riderNotFound
  | noAvailableDrivers
  | rideStarted (rideId : ℕ) (driverName : String) (fare : ℝ)
  | rideNotFound
  | rideAlreadyCompleted
  | rideCompleted (rideId : ℕ) (fare : ℝ)
  | rideListed (rideId : ℕ) (status : String) (riderName : String) (driverName : String)

/-- The `TaxiApp` state: the three id-keyed dicts (as insertion-ordered
lists) and the three id counters. -/
structure TaxiApp where
  riders : List Rider
  drivers : List Driver
  rides : List Ride
  rider_id : ℕ
  driver_id : ℕ
  ride_id : ℕ

/-- `TaxiApp.__init__`: empty collections, all three counters start at 1. -/
def TaxiApp.init : TaxiApp := ⟨[], [], [], 1, 1, 1⟩

/-- `math.hypot(a, b)` = `Real.sqrt (a^2 + b^2)`. -/
noncomputable def hypot (a b : ℝ) : ℝ := Real.sqrt (a ^ 2 + b ^ 2)

/-- Python's built-in `round` ties-to-even rule (banker's rounding),
applied to an exact real value. -/
noncomputable def roundHalfEven (x : ℝ) : ℤ :=
  if Int.fract x < 1 / 2 then ⌊x⌋
  else if 1 / 2 < Int.fract x then ⌈x⌉
  else if Even ⌊x⌋ then ⌊x⌋ else ⌊x⌋ + 1

/-- `round(v, 2)`: round to 2 decimal places. -/
noncomputable def round2 (v : ℝ) : ℝ := (roundHalfEven (v * 100) : ℝ) / 100

/-- `register_rider`: build `Rider(id=self._rider_id, name=name)`, insert it
under its id (list append: fresh dict key), bump the counter, print, return
the rider. -/
def register_rider (s : TaxiApp) (name : String) :
    Rider × TaxiApp × List Event :=
  let rider : Rider := ⟨s.rider_id, name⟩
  (rider,
   { s with riders := s.riders ++ [rider], rider_id := s.rider_id + 1 },
   [Event.registeredRider rider.name rider.id])

/-- `register_driver`: build `Driver(id=self._driver_id, name, x, y)` with
the dataclass default `available=True`, insert, bump counter, print,
return the driver. -/
def register_driver (s : TaxiApp) (name : String) (x y : ℚ) :
    Driver × TaxiApp × List Event :=
  let driver : Driver := ⟨s.driver_id, name, x, y, true⟩
  (driver,
   { s with drivers := s.drivers ++ [driver], driver_id := s.driver_id + 1 },
   [Event.registeredDriver driver.name driver.id x y])

/-- Squared Euclidean distance from driver `d`'s position to `(x, y)`.
The source compares `math.hypot(driver.x - x, driver.y - y)` values;
`Real.sqrt` is strictly monotone on the squares of rationals (see
`hypot_lt_hypot_iff`), so comparing the exact squared distances selects the
same driver as comparing the hypotenuses. -/
def ddist2 (d : Driver) (x y : ℚ) : ℚ := (d.x - x) ^ 2 + (d.y - y) ^ 2

/-- The loop body of `_find_closest_driver`: walk the drivers in insertion
order carrying `(closest, closest_dist)`; the initial
`closest = None, closest_dist = float('inf')` pair is the `none`
accumulator (the first available driver always satisfies
`dist < float('inf')`).  A driver with `available=False` is skipped
(`continue`); an available one replaces the accumulator exactly when its
distance is strictly smaller (`if dist < closest_dist`). -/
def findClosestLoop (x y : ℚ) : List Driver → Option (Driver × ℚ) → Option (Driver × ℚ)
  | [], acc => acc
  | d :: rest, acc =>
    if d.available = false then findClosestLoop x y rest acc
    else
      match acc with
      | none => findClosestLoop x y rest (some (d, ddist2 d x y))
      | some (c, cd) =>
        if ddist2 d x y < cd then findClosestLoop x y rest (some (d, ddist2 d x y))
        else findClosestLoop x y rest (some (c, cd))

/-- `_find_closest_driver(x, y)`: returns the `closest` component of the
loop state after scanning `self.drivers.values()`. -/
def find_closest_driver (s : TaxiApp) (x y : ℚ) : Option Driver :=
  (findClosestLoop x y s.drivers none).map Prod.fst

/-- In-place mutation of the driver object with id `i` (shared between the
`drivers` dict and any rides referencing it): update that entry. -/
def updateDriver (ds : List Driver) (i : ℕ) (f : Driver → Driver) : List Driver :=
  ds.map fun d => if d.id = i then f d else d

/-- `request_ride(rider_id, start_x, start_y, dest_x, dest_y)`:
1. `self.riders.get(rider_id)`; on `None` print "Rider not found", return `None`.
2. `_find_closest_driver(start_x, start_y)`; on `None` print
   "No available drivers", return `None`.
3. `driver.available = False` (in-place mutation).
4. `distance = math.hypot(dest_x - start_x, dest_y - start_y)`;
   `fare = round(250 + distance * 100, 2)`.
5. Build the ride with `completed=False` (dataclass default), store it under
   `self._ride_id`, bump the counter, print the start message, return it. -/
noncomputable def request_ride (s : TaxiApp) (rider_id : ℕ)
    (start_x start_y dest_x dest_y : ℚ) : Option Ride × TaxiApp × List Event :=
  match s.riders.find? (fun r => r.id == rider_id) with
  | none => (none, s, [Event.riderNotFound])
  | some rider =>
    match find_closest_driver s start_x start_y with
    | none => (none, s, [Event.noAvailableDrivers])
    | some driver =>
      let drivers1 := updateDriver s.drivers driver.id fun d => { d with available := false }
      let fare := round2 (250 + hypot ((dest_x : ℝ) - (start_x : ℝ)) ((dest_y : ℝ) - (start_y : ℝ)) * 100)
      let ride : Ride := ⟨s.ride_id, rider.id, driver.id,
        start_x, start_y, dest_x, dest_y, fare, false⟩
      (some ride,
       { s with drivers := drivers1, rides := s.rides ++ [ride],
                ride_id := s.ride_id + 1 },
       [Event.rideStarted ride.id driver.name fare])

/-- `complete_ride(ride_id)`:
1. `self.rides.get(ride_id)`; on `None` print "Ride not found", return.
2. if `ride.completed`: print "Ride already completed", return.
3. `ride.completed = True`; `ride.driver.available = True`;
   `ride.driver.x = ride.dest_x`; `ride.driver.y = ride.dest_y`
   (in-place mutations through the shared driver reference);
   print the completion message.  (Python return value is always `None`.) -/
def complete_ride (s : TaxiApp) (ride_id : ℕ) : TaxiApp × List Event :=
  match s.rides.find? (fun r => r.id == ride_id) with
  | none => (s, [Event.rideNotFound])
  | some ride =>
    if ride.completed then (s, [Event.rideAlreadyCompleted])
    else
      let rides1 := s.rides.map fun r => if r.id = ride_id then { r with completed := true } else r
      let drivers1 := updateDriver s.drivers ride.driverId
        fun d => { d with available := true, x := ride.dest_x, y := ride.dest_y }
      ({ s with rides := rides1, drivers := drivers1 },
       [Event.rideCompleted ride.id ride.fare])

/-- `ride.rider.name`: the rider reference stored in a ride resolved through
the state (rider names are immutable, so the id lookup agrees with the
source's object reference; the `""` default is never reached on reachable
states). -/
def riderNameOf (s : TaxiApp) (i : ℕ) : String :=
  ((s.riders.find? fun r => r.id == i).map Rider.name).getD ""

/-- `ride.driver.name`: as `riderNameOf`, for the driver reference. -/
def driverNameOf (s : TaxiApp) (i : ℕ) : String :=
  ((s.drivers.find? fun d => d.id == i).map Driver.name).getD ""

/-- `list_rides()`: iterate `self.rides.values()` in insertion order and
print one line per ride with status "completed"/"active" and the two names.
The method reads but never writes the state; the returned state is the
input state, making that explicit at the call surface. -/
def list_rides (s : TaxiApp) : TaxiApp × List Event :=
  (s,
   s.rides.map fun ride =>
     Event.rideListed ride.id (if ride.completed then "completed" else "active")
       (riderNameOf s ride.riderId) (driverNameOf s ride.driverId))

/-- The ride id carried by a `rideListed` event (0 for other events). -/
def listedRideId : Event → ℕ
  | Event.rideListed i _ _ _ => i
  | _ => 0

/-- One menu action of the interaction loop (the four core mutators plus
the read-only listing). -/
inductive Op where
  | regRider (name : String)
  | regDriver (name : String) (x y : ℚ)
  | reqRide (riderId : ℕ) (sx sy dx dy : ℚ)
  | compRide (rideId : ℕ)
  | listRides

/-- Effect of one operation on the core state. -/
noncomputable def step (s : TaxiApp) : Op → TaxiApp
  | Op.regRider n => (register_rider s n).2.1
  | Op.regDriver n x y => (register_driver s n x y).2.1
  | Op.reqRide rid sx sy dx dy => (request_ride s rid sx sy dx dy).2.1
  | Op.compRide rid => (complete_ride s rid).1
  | Op.listRides => (list_rides s).1

/-- States reachable from a fresh `TaxiApp()` by any sequence of
operations. -/
inductive Reachable : TaxiApp → Prop where
  | init : Reachable TaxiApp.init
  | step (s : TaxiApp) (o : Op) : Reachable s → Reachable (step s o)

/-- The active (non-completed) rides of a state. -/
def activeRides (s : TaxiApp) : List Ride := s.rides.filter fun r => !r.completed

/-- The exact Euclidean distance the source computes for driver selection:
`math.hypot(driver.x - x, driver.y - y)`. -/
noncomputable def driverDistance (d : Driver) (x y : ℚ) : ℝ :=
  hypot ((d.x : ℝ) - (x : ℝ)) ((d.y : ℝ) - (y : ℝ))

/-- Example state: one registered driver, no riders. -/
def exS1 : TaxiApp := (register_driver TaxiApp.init "Dave" 0 0).2.1

/-- Example state: one registered rider, no drivers. -/
def exS2 : TaxiApp := (register_rider TaxiApp.init "Rita").2.1

/-- Example state: rider Rita (id 1), driver Near (id 1) at (0,0) and
driver Far (id 2) at (10,10), both available. -/
def exS3 : TaxiApp :=
  (register_driver (register_driver exS2 "Near" 0 0).2.1 "Far" 10 10).2.1

/-- Example state: `exS3` after a successful ride request by rider 1
starting at (1,1) with destination (5,5); ride 1 is active with driver 1. -/
noncomputable def exS4 : TaxiApp := (request_ride exS3 1 1 1 5 5).2.1

/-- The fare of the example ride from (1,1) to (5,5). -/
noncomputable def exFare : ℝ :=
  round2 (250 + hypot (((5 : ℚ) : ℝ) - ((1 : ℚ) : ℝ))
    (((5 : ℚ) : ℝ) - ((1 : ℚ) : ℝ)) * 100)

/-- The ride stored by the request made in `exS4`. -/
noncomputable def exRide : Ride := ⟨1, 1, 1, 1, 1, 5, 5, exFare, false⟩

/-- `exS4` after a second successful request (driver 2 assigned, ride 2). -/
noncomputable def exS5 : TaxiApp := (request_ride exS4 1 1 1 7 7).2.1

/-- `exS5` after completing ride 1: a mix of one completed and one active
ride. -/
noncomputable def exS6 : TaxiApp := (complete_ride exS5 1).1

/-- The state invariant maintained by every operation:
ids of each collection are exactly `1, 2, …, length` in insertion order,
each counter is one past its collection, every ride references an existing
driver and rider, every driver of an active ride is unavailable, and no two
active rides share a driver. -/
structure Inv (s : TaxiApp) : Prop where
  riders_ids : s.riders.map Rider.id = List.range' 1 s.riders.length
  rider_ctr : s.rider_id = s.riders.length + 1
  drivers_ids : s.drivers.map Driver.id = List.range' 1 s.drivers.length
  driver_ctr : s.driver_id = s.drivers.length + 1
  rides_ids : s.rides.map Ride.id = List.range' 1 s.rides.length
  ride_ctr : s.ride_id = s.rides.length + 1
  ride_driver_mem : ∀ r ∈ s.rides, ∃ d ∈ s.drivers, d.id = r.driverId
  ride_rider_mem : ∀ r ∈ s.rides, ∃ p ∈ s.riders, p.id = r.riderId
  active_busy : ∀ r ∈ s.rides, r.completed = false →
    ∀ d ∈ s.drivers, d.id = r.driverId → d.available = false
  active_excl : (activeRides s).Pairwise fun a b => a.driverId ≠ b.driverId

/-! ## The driver-selection loop -/

theorem findClosestLoop_acc_ne_none (x y : ℚ) (l : List Driver) (p : Driver × ℚ) :
    findClosestLoop x y l (some p) ≠ none := by
  induction l generalizing p with
  | nil => simp [findClosestLoop]
  | cons d rest ih =>
    obtain ⟨c, cd⟩ := p
    rw [findClosestLoop]
    split
    · exact ih _
    · split
      · exact ih _
      · exact ih _

theorem findClosestLoop_ne_none (x y : ℚ) (l : List Driver) (d : Driver)
    (hd : d ∈ l) (hav : d.available = true) :
    ∀ acc, findClosestLoop x y l acc ≠ none := by
  induction l with
  | nil => cases hd
  | cons e rest ih =>
    intro acc
    cases acc with
    | none =>
      rw [findClosestLoop]
      rcases List.mem_cons.mp hd with rfl | hmem
      · rw [if_neg (by simp [hav])]
        exact findClosestLoop_acc_ne_none x y rest _
      · split
        · exact ih hmem none
        · exact findClosestLoop_acc_ne_none x y rest _
    | some p =>
      obtain ⟨c, cd⟩ := p
      rw [findClosestLoop]
      rcases List.mem_cons.mp hd with rfl | hmem
      · rw [if_neg (by simp [hav])]
        split
        · exact findClosestLoop_acc_ne_none x y rest _
        · exact findClosestLoop_acc_ne_none x y rest _
      · split
        · exact ih hmem _
        · split
          · exact findClosestLoop_acc_ne_none x y rest _
          · exact findClosestLoop_acc_ne_none x y rest _

/-- Full characterisation of the selection loop: the result's cached
distance is its own distance, the result is available, it beats the
accumulator and every available driver of the list, and it either is the
accumulator or is the first driver of the list that strictly beats the
accumulator and every available driver before it (the source replaces the
incumbent only on a strictly smaller distance, so the first-encountered
driver wins ties). -/
theorem findClosestLoop_char (x y : ℚ) (l : List Driver) :
    ∀ (acc : Option (Driver × ℚ)),
      (∀ a da, acc = some (a, da) → da = ddist2 a x y ∧ a.available = true) →
      ∀ c cd, findClosestLoop x y l acc = some (c, cd) →
        cd = ddist2 c x y ∧ c.available = true ∧
        (∀ a da, acc = some (a, da) → cd ≤ da) ∧
        (∀ d ∈ l, d.available = true → cd ≤ ddist2 d x y) ∧
        ((∃ da, acc = some (c, da)) ∨
          ∃ l₁ l₂, l = l₁ ++ c :: l₂ ∧
            (∀ a da, acc = some (a, da) → cd < da) ∧
            ∀ d ∈ l₁, d.available = true → cd < ddist2 d x y) := by
  induction l with
  | nil =>
    intro acc hacc c cd h
    rw [findClosestLoop] at h
    obtain ⟨h1, h2⟩ := hacc c cd h
    refine ⟨h1, h2, ?_, ?_, Or.inl ⟨cd, h⟩⟩
    · intro a da ha
      rw [h] at ha
      simp only [Option.some.injEq, Prod.mk.injEq] at ha
      exact le_of_eq ha.2
    · intro e he
      cases he
  | cons d rest ih =>
    intro acc hacc c cd h
    cases acc with
    | none =>
      rw [findClosestLoop] at h
      by_cases hav : d.available = false
      · rw [if_pos hav] at h
        obtain ⟨h1, h2, h3, h4, h5⟩ := ih none hacc c cd h
        refine ⟨h1, h2, fun a da h0 => Option.noConfusion h0, ?_, ?_⟩
        · intro e he hea
          rcases List.mem_cons.mp he with rfl | hmem
          · rw [hav] at hea; cases hea
          · exact h4 e hmem hea
        · rcases h5 with ⟨da, hda⟩ | ⟨l₁, l₂, hl, hstr, hbef⟩
          · exact Option.noConfusion hda
          · refine Or.inr ⟨d :: l₁, l₂, by rw [hl]; rfl,
              fun a da h0 => Option.noConfusion h0, ?_⟩
            intro e he hea
            rcases List.mem_cons.mp he with rfl | hmem
            · rw [hav] at hea; cases hea
            · exact hbef e hmem hea
      · rw [if_neg hav] at h
        have hav2 : d.available = true := by
          cases hd2 : d.available with
          | false => exact absurd hd2 hav
          | true => rfl
        obtain ⟨h1, h2, h3, h4, h5⟩ := ih (some (d, ddist2 d x y))
          (by
            intro a da ha
            simp only [Option.some.injEq, Prod.mk.injEq] at ha
            obtain ⟨rfl, rfl⟩ := ha
            exact ⟨rfl, hav2⟩) c cd h
        refine ⟨h1, h2, fun a da h0 => Option.noConfusion h0, ?_, ?_⟩
        · intro e he hea
          rcases List.mem_cons.mp he with rfl | hmem
          · exact h3 e (ddist2 e x y) rfl
          · exact h4 e hmem hea
        · rcases h5 with ⟨da, hda⟩ | ⟨l₁, l₂, hl, hstr, hbef⟩
          · simp only [Option.some.injEq, Prod.mk.injEq] at hda
            obtain ⟨rfl, -⟩ := hda
            exact Or.inr ⟨[], rest, rfl, fun a da h0 => Option.noConfusion h0,
              fun e he => absurd he (List.not_mem_nil e)⟩
          · refine Or.inr ⟨d :: l₁, l₂, by rw [hl]; rfl,
              fun a da h0 => Option.noConfusion h0, ?_⟩
            intro e he hea
            rcases List.mem_cons.mp he with rfl | hmem
            · exact hstr e (ddist2 e x y) rfl
            · exact hbef e hmem hea
    | some p =>
      obtain ⟨a, da⟩ := p
      obtain ⟨hda, hava⟩ := hacc a da rfl
      rw [findClosestLoop] at h
      by_cases hav : d.available = false
      · rw [if_pos hav] at h
        obtain ⟨h1, h2, h3, h4, h5⟩ := ih (some (a, da)) hacc c cd h
        refine ⟨h1, h2, h3, ?_, ?_⟩
        · intro e he hea
          rcases List.mem_cons.mp he with rfl | hmem
          · rw [hav] at hea; cases hea
          · exact h4 e hmem hea
        · rcases h5 with h5 | ⟨l₁, l₂, hl, hstr, hbef⟩
          · exact Or.inl h5
          · refine Or.inr ⟨d :: l₁, l₂, by rw [hl]; rfl, hstr, ?_⟩
            intro e he hea
            rcases List.mem_cons.mp he with rfl | hmem
            · rw [hav] at hea; cases hea
            · exact hbef e hmem hea
      · rw [if_neg hav] at h
        have hav2 : d.available = true := by
          cases hd2 : d.available with
          | false => exact absurd hd2 hav
          | true => rfl
        by_cases hcmp : ddist2 d x y < da
        · rw [if_pos hcmp] at h
          obtain ⟨h1, h2, h3, h4, h5⟩ := ih (some (d, ddist2 d x y))
            (by
              intro a2 da2 ha
              simp only [Option.some.injEq, Prod.mk.injEq] at ha
              obtain ⟨rfl, rfl⟩ := ha
              exact ⟨rfl, hav2⟩) c cd h
          have hcdd : cd ≤ ddist2 d x y := h3 d (ddist2 d x y) rfl
          refine ⟨h1, h2, ?_, ?_, ?_⟩
          · intro a2 da2 ha
            simp only [Option.some.injEq, Prod.mk.injEq] at ha
            obtain ⟨rfl, rfl⟩ := ha
            exact le_of_lt (lt_of_le_of_lt hcdd hcmp)
          · intro e he hea
            rcases List.mem_cons.mp he with rfl | hmem
            · exact hcdd
            · exact h4 e hmem hea
          · rcases h5 with ⟨da2, hda2⟩ | ⟨l₁, l₂, hl, hstr, hbef⟩
            · simp only [Option.some.injEq, Prod.mk.injEq] at hda2
              obtain ⟨rfl, -⟩ := hda2
              refine Or.inr ⟨[], rest, rfl, ?_, fun e he => absurd he (List.not_mem_nil e)⟩
              intro a2 da2 ha
              simp only [Option.some.injEq, Prod.mk.injEq] at ha
              obtain ⟨rfl, rfl⟩ := ha
              exact lt_of_le_of_lt hcdd hcmp
            · have hstrd : cd < ddist2 d x y := hstr d (ddist2 d x y) rfl
              refine Or.inr ⟨d :: l₁, l₂, by rw [hl]; rfl, ?_, ?_⟩
              · intro a2 da2 ha
                simp only [Option.some.injEq, Prod.mk.injEq] at ha
                obtain ⟨rfl, rfl⟩ := ha
                exact lt_trans hstrd hcmp
              · intro e he hea
                rcases List.mem_cons.mp he with rfl | hmem
                · exact hstrd
                · exact hbef e hmem hea
        · rw [if_neg hcmp] at h
          have hled : da ≤ ddist2 d x y := not_lt.mp hcmp
          obtain ⟨h1, h2, h3, h4, h5⟩ := ih (some (a, da)) hacc c cd h
          have hcda : cd ≤ da := h3 a da rfl
          refine ⟨h1, h2, ?_, ?_, ?_⟩
          · intro a2 da2 ha
            simp only [Option.some.injEq, Prod.mk.injEq] at ha
            obtain ⟨rfl, rfl⟩ := ha
            exact hcda
          · intro e he hea
            rcases List.mem_cons.mp he with rfl | hmem
            · exact le_trans hcda hled
            · exact h4 e hmem hea
          · rcases h5 with h5 | ⟨l₁, l₂, hl, hstr, hbef⟩
            · exact Or.inl h5
            · have hstra : cd < da := hstr a da rfl
              refine Or.inr ⟨d :: l₁, l₂, by rw [hl]; rfl, hstr, ?_⟩
              intro e he hea
              rcases List.mem_cons.mp he with rfl | hmem
              · exact lt_of_lt_of_le hstra hled
              · exact hbef e hmem hea

/-- Selection soundness: a returned driver is a member, is available, has
minimal squared distance among the available drivers, and every available
driver listed before it is strictly farther (hence the first-registered
driver wins ties). -/
theorem find_closest_driver_spec (s : TaxiApp) (x y : ℚ) (c : Driver)
    (h : find_closest_driver s x y = some c) :
    c ∈ s.drivers ∧ c.available = true ∧
    (∀ d ∈ s.drivers, d.available = true → ddist2 c x y ≤ ddist2 d x y) ∧
    ∃ l₁ l₂, s.drivers = l₁ ++ c :: l₂ ∧
      ∀ d ∈ l₁, d.available = true → ddist2 c x y < ddist2 d x y := by
  unfold find_closest_driver at h
  cases hl : findClosestLoop x y s.drivers none with
  | none => rw [hl] at h; cases h
  | some p =>
    obtain ⟨c2, cd⟩ := p
    rw [hl] at h
    simp only [Option.map_some', Option.some.injEq] at h
    subst h
    obtain ⟨h1, h2, -, h4, h5⟩ := findClosestLoop_char x y s.drivers none
      (fun a da h0 => Option.noConfusion h0) c2 cd hl
    subst h1
    rcases h5 with ⟨da, hda⟩ | ⟨l₁, l₂, hl2, -, hbef⟩
    · exact Option.noConfusion hda
    · refine ⟨?_, h2, h4, l₁, l₂, hl2, hbef⟩
      rw [hl2]
      exact List.mem_append_right l₁ (List.mem_cons_self c2 l₂)

/-- Selection completeness: if some driver is available, the scan returns a
driver. -/
theorem find_closest_driver_isSome (s : TaxiApp) (x y : ℚ) (d : Driver)
    (hd : d ∈ s.drivers) (hav : d.available = true) :
    ∃ c, find_closest_driver s x y = some c := by
  unfold find_closest_driver
  cases hl : findClosestLoop x y s.drivers none with
  | none => exact absurd hl (findClosestLoop_ne_none x y s.drivers d hd hav none)
  | some p => exact ⟨p.1, rfl⟩

/-! ## Squared distances versus Euclidean distances -/

theorem ddist2_nonneg (d : Driver) (x y : ℚ) : 0 ≤ ddist2 d x y := by
  unfold ddist2; positivity

theorem driverDistance_eq_sqrt (d : Driver) (x y : ℚ) :
    driverDistance d x y = Real.sqrt ((ddist2 d x y : ℚ) : ℝ) := by
  unfold driverDistance hypot
  congr 1
  push_cast [ddist2]
  ring

/-- Monotonicity of the true Euclidean comparison in the squared one. -/
theorem driverDistance_le_of_ddist2_le (c d : Driver) (x y : ℚ)
    (h : ddist2 c x y ≤ ddist2 d x y) :
    driverDistance c x y ≤ driverDistance d x y := by
  rw [driverDistance_eq_sqrt, driverDistance_eq_sqrt]
  exact Real.sqrt_le_sqrt (by exact_mod_cast h)

/-- Equal Euclidean distances force equal squared distances. -/
theorem ddist2_eq_of_driverDistance_eq (c d : Driver) (x y : ℚ)
    (h : driverDistance c x y = driverDistance d x y) :
    ddist2 c x y = ddist2 d x y := by
  rw [driverDistance_eq_sqrt, driverDistance_eq_sqrt] at h
  have h2 := congrArg (fun t => t ^ 2) h
  simp only [Real.sq_sqrt (by exact_mod_cast ddist2_nonneg c x y : (0:ℝ) ≤ ((ddist2 c x y : ℚ) : ℝ)),
    Real.sq_sqrt (by exact_mod_cast ddist2_nonneg d x y : (0:ℝ) ≤ ((ddist2 d x y : ℚ) : ℝ))] at h2
  exact_mod_cast h2

/-! ## Driver updates -/

theorem updateDriver_map_id (ds : List Driver) (i : ℕ) (f : Driver → Driver)
    (hf : ∀ d, (f d).id = d.id) :
    (updateDriver ds i f).map Driver.id = ds.map Driver.id := by
  unfold updateDriver
  rw [List.map_map]
  apply List.map_congr_left
  intro d _
  by_cases hd : d.id = i
  · simp [hd, hf]
  · simp [hd]

theorem updateDriver_length (ds : List Driver) (i : ℕ) (f : Driver → Driver) :
    (updateDriver ds i f).length = ds.length := by
  unfold updateDriver
  exact List.length_map ds _

theorem updateDriver_mem (ds : List Driver) (i : ℕ) (f : Driver → Driver)
    (d : Driver) (hd : d ∈ updateDriver ds i f) :
    ∃ d0 ∈ ds, d = if d0.id = i then f d0 else d0 := by
  unfold updateDriver at hd
  obtain ⟨d0, hd0, he⟩ := List.mem_map.mp hd
  exact ⟨d0, hd0, he.symm⟩

theorem updateDriver_exists_id (ds : List Driver) (i : ℕ) (f : Driver → Driver)
    (hf : ∀ d, (f d).id = d.id) (j : ℕ) (h : ∃ d ∈ ds, d.id = j) :
    ∃ d ∈ updateDriver ds i f, d.id = j := by
  obtain ⟨d, hd, hdj⟩ := h
  by_cases hdi : d.id = i
  · refine ⟨f d, ?_, by rw [hf d]; exact hdj⟩
    unfold updateDriver
    exact List.mem_map.mpr ⟨d, hd, by rw [if_pos hdi]⟩
  · refine ⟨d, ?_, hdj⟩
    unfold updateDriver
    exact List.mem_map.mpr ⟨d, hd, by rw [if_neg hdi]⟩

/-! ## Preservation of the invariant -/

/-- Pairwise distinctness of driver ids among active rides survives a ride
map that preserves `driverId` and never un-completes a ride. -/
theorem pairwise_active_map (l : List Ride) (f : Ride → Ride)
    (hdid : ∀ r, (f r).driverId = r.driverId)
    (hcomp : ∀ r, (f r).completed = false → r.completed = false)
    (h : (l.filter fun r => !r.completed).Pairwise fun a b => a.driverId ≠ b.driverId) :
    ((l.map f).filter fun r => !r.completed).Pairwise fun a b => a.driverId ≠ b.driverId := by
  induction l with
  | nil => simp
  | cons r rest ih =>
    rw [List.map_cons, List.filter_cons]
    rw [List.filter_cons] at h
    cases hfr : (f r).completed with
    | false =>
      have hr : r.completed = false := hcomp r hfr
      rw [if_pos (by simp [hfr])]
      rw [if_pos (by simp [hr])] at h
      obtain ⟨hhead, htail⟩ := List.pairwise_cons.mp h
      refine List.pairwise_cons.mpr ⟨?_, ih htail⟩
      intro b hb
      obtain ⟨hbmap, hbact⟩ := List.mem_filter.mp hb
      obtain ⟨b0, hb0mem, hb0f⟩ := List.mem_map.mp hbmap
      have hb0act : b0.completed = false := by
        apply hcomp
        rw [hb0f]
        simpa using hbact
      have hne : r.driverId ≠ b0.driverId :=
        hhead b0 (List.mem_filter.mpr ⟨hb0mem, by simp [hb0act]⟩)
      rw [hdid, ← hb0f, hdid]
      exact hne
    | true =>
      rw [if_neg (by simp [hfr])]
      cases hr : r.completed with
      | false =>
        rw [if_pos (by simp [hr])] at h
        exact ih (List.pairwise_cons.mp h).2
      | true =>
        rw [if_neg (by simp [hr])] at h
        exact ih h

theorem inv_init : Inv TaxiApp.init := by
  refine ⟨?_, ?_, ?_, ?_, ?_, ?_, ?_, ?_, ?_, ?_⟩ <;>
    simp [TaxiApp.init, activeRides]

theorem inv_register_rider (s : TaxiApp) (n : String) (h : Inv s) :
    Inv (register_rider s n).2.1 := by
  refine ⟨?_, ?_, h.drivers_ids, h.driver_ctr, h.rides_ids, h.ride_ctr,
    h.ride_driver_mem, ?_, h.active_busy, h.active_excl⟩
  · show (s.riders ++ [(⟨s.rider_id, n⟩ : Rider)]).map Rider.id
      = List.range' 1 (s.riders ++ [(⟨s.rider_id, n⟩ : Rider)]).length
    rw [List.map_append, h.riders_ids, h.rider_ctr]
    simp [List.range'_concat, Nat.add_comm]
  · show s.rider_id + 1 = (s.riders ++ [(⟨s.rider_id, n⟩ : Rider)]).length + 1
    rw [h.rider_ctr, List.length_append]
    rfl
  · intro r hr
    obtain ⟨p, hp, hpe⟩ := h.ride_rider_mem r hr
    exact ⟨p, List.mem_append_left _ hp, hpe⟩

theorem inv_register_driver (s : TaxiApp) (n : String) (x y : ℚ) (h : Inv s) :
    Inv (register_driver s n x y).2.1 := by
  refine ⟨h.riders_ids, h.rider_ctr, ?_, ?_, h.rides_ids, h.ride_ctr,
    ?_, h.ride_rider_mem, ?_, h.active_excl⟩
  · show (s.drivers ++ [(⟨s.driver_id, n, x, y, true⟩ : Driver)]).map Driver.id
      = List.range' 1 (s.drivers ++ [(⟨s.driver_id, n, x, y, true⟩ : Driver)]).length
    rw [List.map_append, h.drivers_ids, h.driver_ctr]
    simp [List.range'_concat, Nat.add_comm]
  · show s.driver_id + 1 = (s.drivers ++ [(⟨s.driver_id, n, x, y, true⟩ : Driver)]).length + 1
    rw [h.driver_ctr, List.length_append]
    rfl
  · intro r hr
    obtain ⟨d, hd, hde⟩ := h.ride_driver_mem r hr
    exact ⟨d, List.mem_append_left _ hd, hde⟩
  · intro r hr hract d hd hdid
    rcases List.mem_append.mp hd with hd | hd
    · exact h.active_busy r hr hract d hd hdid
    · exfalso
      have hdnew : d = (⟨s.driver_id, n, x, y, true⟩ : Driver) := List.mem_singleton.mp hd
      obtain ⟨d0, hd0, hd0e⟩ := h.ride_driver_mem r hr
      have hd0lt : d0.id < 1 + s.drivers.length := by
        have : d0.id ∈ s.drivers.map Driver.id := List.mem_map.mpr ⟨d0, hd0, rfl⟩
        rw [h.drivers_ids] at this
        exact (List.mem_range'_1.mp this).2
      have : d.id = s.driver_id := by rw [hdnew]
      rw [hdid, ← hd0e] at this
      rw [h.driver_ctr] at this
      omega

theorem inv_request_ride (s : TaxiApp) (rid : ℕ) (sx sy dx dy : ℚ) (h : Inv s) :
    Inv (request_ride s rid sx sy dx dy).2.1 := by
  cases hfind : s.riders.find? (fun r => r.id == rid) with
  | none =>
    simp only [request_ride, hfind]
    exact h
  | some rider =>
    cases hclosest : find_closest_driver s sx sy with
    | none =>
      simp only [request_ride, hfind, hclosest]
      exact h
    | some c =>
      simp only [request_ride, hfind, hclosest]
      obtain ⟨hcmem, hcav, hcmin, -⟩ := find_closest_driver_spec s sx sy c hclosest
      have hrdmem : rider ∈ s.riders := List.mem_of_find?_eq_some hfind
      show Inv { s with
        drivers := updateDriver s.drivers c.id fun d => { d with available := false },
        rides := s.rides ++ [(⟨s.ride_id, rider.id, c.id, sx, sy, dx, dy,
          round2 (250 + hypot ((dx : ℝ) - (sx : ℝ)) ((dy : ℝ) - (sy : ℝ)) * 100),
          false⟩ : Ride)],
        ride_id := s.ride_id + 1 }
      refine ⟨h.riders_ids, h.rider_ctr, ?_, ?_, ?_, ?_, ?_, ?_, ?_, ?_⟩
      · show (updateDriver s.drivers c.id fun d => { d with available := false }).map Driver.id
          = List.range' 1 (updateDriver s.drivers c.id fun d => { d with available := false }).length
        rw [updateDriver_map_id s.drivers c.id (fun d => { d with available := false })
          (fun d => rfl), updateDriver_length]
        exact h.drivers_ids
      · show s.driver_id
          = (updateDriver s.drivers c.id fun d => { d with available := false }).length + 1
        rw [updateDriver_length]
        exact h.driver_ctr
      · show (s.rides ++ [_]).map Ride.id = List.range' 1 (s.rides ++ [_]).length
        rw [List.map_append, h.rides_ids, h.ride_ctr]
        simp [List.range'_concat, Nat.add_comm]
      · show s.ride_id + 1 = (s.rides ++ [_]).length + 1
        rw [h.ride_ctr, List.length_append]
        rfl
      · intro r hr
        rcases List.mem_append.mp hr with hmem | hnew
        · exact updateDriver_exists_id s.drivers c.id
            (fun d => { d with available := false }) (fun d => rfl) _
            (h.ride_driver_mem r hmem)
        · have hrn := List.mem_singleton.mp hnew
          subst hrn
          exact updateDriver_exists_id s.drivers c.id
            (fun d => { d with available := false }) (fun d => rfl) _ ⟨c, hcmem, rfl⟩
      · intro r hr
        rcases List.mem_append.mp hr with hmem | hnew
        · exact h.ride_rider_mem r hmem
        · have hrn := List.mem_singleton.mp hnew
          subst hrn
          exact ⟨rider, hrdmem, rfl⟩
      · intro r hr hract d hd hdid
        obtain ⟨d0, hd0, hd0e⟩ := updateDriver_mem _ _ _ d hd
        by_cases hd0i : d0.id = c.id
        · rw [hd0e, if_pos hd0i]
        · have hdd0 : d = d0 := by rw [hd0e, if_neg hd0i]
          subst hdd0
          rcases List.mem_append.mp hr with hmem | hnew
          · exact h.active_busy r hmem hract d hd0 hdid
          · have hrn := List.mem_singleton.mp hnew
            subst hrn
            exact absurd hdid hd0i
      · show (List.filter (fun r => !r.completed) (s.rides ++ [_])).Pairwise
          fun a b => a.driverId ≠ b.driverId
        rw [List.filter_append]
        rw [show List.filter (fun r => !r.completed)
            [(⟨s.ride_id, rider.id, c.id, sx, sy, dx, dy,
              round2 (250 + hypot ((dx : ℝ) - (sx : ℝ)) ((dy : ℝ) - (sy : ℝ)) * 100),
              false⟩ : Ride)] =
            [(⟨s.ride_id, rider.id, c.id, sx, sy, dx, dy,
              round2 (250 + hypot ((dx : ℝ) - (sx : ℝ)) ((dy : ℝ) - (sy : ℝ)) * 100),
              false⟩ : Ride)] from by simp]
        refine List.pairwise_append.mpr ⟨h.active_excl, List.pairwise_singleton _ _, ?_⟩
        intro a ha b hb
        have hb2 := List.mem_singleton.mp hb
        subst hb2
        intro hcon
        obtain ⟨hamem, haact⟩ := List.mem_filter.mp ha
        have haact2 : a.completed = false := by simpa using haact
        have hfalse := h.active_busy a hamem haact2 c hcmem hcon.symm
        rw [hcav] at hfalse
        cases hfalse

theorem inv_complete_ride (s : TaxiApp) (rid : ℕ) (h : Inv s) :
    Inv (complete_ride s rid).1 := by
  cases hfind : s.rides.find? (fun r => r.id == rid) with
  | none =>
    simp only [complete_ride, hfind]
    exact h
  | some r0 =>
    cases hc0 : r0.completed with
    | true =>
      simp only [complete_ride, hfind]
      rw [if_pos hc0]
      exact h
    | false =>
      simp only [complete_ride, hfind]
      rw [if_neg (by simp [hc0])]
      have hr0mem : r0 ∈ s.rides := List.mem_of_find?_eq_some hfind
      have hr0id : r0.id = rid := by simpa using List.find?_some hfind
      show Inv { s with
        rides := s.rides.map fun r => if r.id = rid then { r with completed := true } else r,
        drivers := updateDriver s.drivers r0.driverId
          fun d => { d with available := true, x := r0.dest_x, y := r0.dest_y } }
      have hfid : ∀ r : Ride,
          (if r.id = rid then { r with completed := true } else r).id = r.id := by
        intro r
        by_cases hr : r.id = rid <;> simp [hr]
      have hfdid : ∀ r : Ride,
          (if r.id = rid then { r with completed := true } else r).driverId = r.driverId := by
        intro r
        by_cases hr : r.id = rid <;> simp [hr]
      have hfrid : ∀ r : Ride,
          (if r.id = rid then { r with completed := true } else r).riderId = r.riderId := by
        intro r
        by_cases hr : r.id = rid <;> simp [hr]
      have hfcomp : ∀ r : Ride,
          (if r.id = rid then { r with completed := true } else r).completed = false →
          r.completed = false := by
        intro r hr2
        by_cases hr : r.id = rid
        · rw [if_pos hr] at hr2
          cases hr2
        · rw [if_neg hr] at hr2
          exact hr2
      refine ⟨h.riders_ids, h.rider_ctr, ?_, ?_, ?_, ?_, ?_, ?_, ?_, ?_⟩
      · show (updateDriver s.drivers r0.driverId fun d =>
            { d with available := true, x := r0.dest_x, y := r0.dest_y }).map Driver.id
          = List.range' 1 (updateDriver s.drivers r0.driverId fun d =>
            { d with available := true, x := r0.dest_x, y := r0.dest_y }).length
        rw [updateDriver_map_id s.drivers r0.driverId
          (fun d => { d with available := true, x := r0.dest_x, y := r0.dest_y })
          (fun d => rfl), updateDriver_length]
        exact h.drivers_ids
      · show s.driver_id = (updateDriver s.drivers r0.driverId fun d =>
            { d with available := true, x := r0.dest_x, y := r0.dest_y }).length + 1
        rw [updateDriver_length]
        exact h.driver_ctr
      · show ((s.rides.map fun r =>
            if r.id = rid then { r with completed := true } else r).map Ride.id)
          = List.range' 1 (s.rides.map fun r =>
            if r.id = rid then { r with completed := true } else r).length
        rw [List.map_map, List.length_map]
        have hcongr : List.map
            (Ride.id ∘ fun r => if r.id = rid then { r with completed := true } else r)
            s.rides = List.map Ride.id s.rides :=
          List.map_congr_left fun r _ => hfid r
        rw [hcongr]
        exact h.rides_ids
      · show s.ride_id = (s.rides.map fun r =>
            if r.id = rid then { r with completed := true } else r).length + 1
        rw [List.length_map]
        exact h.ride_ctr
      · intro r hr
        obtain ⟨r1, hr1, hre⟩ := List.mem_map.mp hr
        have hrd : r.driverId = r1.driverId := by rw [← hre]; exact hfdid r1
        rw [hrd]
        exact updateDriver_exists_id s.drivers r0.driverId
          (fun d => { d with available := true, x := r0.dest_x, y := r0.dest_y })
          (fun d => rfl) _ (h.ride_driver_mem r1 hr1)
      · intro r hr
        obtain ⟨r1, hr1, hre⟩ := List.mem_map.mp hr
        have hrd : r.riderId = r1.riderId := by rw [← hre]; exact hfrid r1
        rw [hrd]
        exact h.ride_rider_mem r1 hr1
      · intro r hr hract d hd hdid
        obtain ⟨r1, hr1, hre⟩ := List.mem_map.mp hr
        have hr1act : r1.completed = false := by
          apply hfcomp
          rw [hre]
          exact hract
        have hr1ne : r1.id ≠ rid := by
          intro hcon
          rw [← hre, if_pos hcon] at hract
          cases hract
        have hrr1 : r = r1 := by rw [← hre, if_neg hr1ne]
        subst hrr1
        obtain ⟨d0, hd0, hd0e⟩ := updateDriver_mem _ _ _ d hd
        by_cases hd0i : d0.id = r0.driverId
        · exfalso
          have hdi : d.id = r0.driverId := by
            rw [hd0e, if_pos hd0i]
            exact hd0i
          have hdd : r.driverId = r0.driverId := by rw [← hdid, hdi]
          have hrmem2 : r ∈ activeRides s :=
            List.mem_filter.mpr ⟨hr1, by simp [hr1act]⟩
          have hr0mem2 : r0 ∈ activeRides s :=
            List.mem_filter.mpr ⟨hr0mem, by simp [hc0]⟩
          have hne : r ≠ r0 := by
            intro hcon
            exact hr1ne (by rw [hcon, hr0id])
          exact h.active_excl.forall (fun a b hab => hab.symm) hrmem2 hr0mem2 hne hdd
        · have hdd0 : d = d0 := by rw [hd0e, if_neg hd0i]
          subst hdd0
          exact h.active_busy r hr1 hr1act d hd0 hdid
      · show (List.filter (fun r => !r.completed) (s.rides.map fun r =>
            if r.id = rid then { r with completed := true } else r)).Pairwise
          fun a b => a.driverId ≠ b.driverId
        exact pairwise_active_map s.rides _ hfdid hfcomp h.active_excl

/-- Every operation preserves the invariant. -/
theorem inv_step (s : TaxiApp) (o : Op) (h : Inv s) : Inv (step s o) := by
  cases o with
  | regRider n => exact inv_register_rider s n h
  | regDriver n x y => exact inv_register_driver s n x y h
  | reqRide rid sx sy dx dy => exact inv_request_ride s rid sx sy dx dy h
  | compRide rid => exact inv_complete_ride s rid h
  | listRides => exact h

/-- Every reachable state satisfies the invariant. -/
theorem reachable_inv (s : TaxiApp) (h : Reachable s) : Inv s := by
  induction h with
  | init => exact inv_init
  | step s o _ ih => exact inv_step s o ih

/-- Positional stability of stored rides under every operation: a stored
ride keeps its position, id, rider/driver references, endpoints and fare;
a completed ride stays completed. -/
theorem step_rides_pointwise (s : TaxiApp) (o : Op) (i : ℕ) (r : Ride)
    (h : s.rides[i]? = some r) :
    ∃ r2, (step s o).rides[i]? = some r2 ∧ r2.id = r.id ∧ r2.fare = r.fare ∧
      r2.riderId = r.riderId ∧ r2.driverId = r.driverId ∧
      r2.start_x = r.start_x ∧ r2.start_y = r.start_y ∧
      r2.dest_x = r.dest_x ∧ r2.dest_y = r.dest_y ∧
      (r.completed = true → r2.completed = true) := by
  have hi : i < s.rides.length := by
    by_contra hcon
    rw [List.getElem?_eq_none (le_of_not_lt hcon)] at h
    cases h
  cases o with
  | regRider n => exact ⟨r, h, rfl, rfl, rfl, rfl, rfl, rfl, rfl, rfl, fun hc => hc⟩
  | regDriver n x y => exact ⟨r, h, rfl, rfl, rfl, rfl, rfl, rfl, rfl, rfl, fun hc => hc⟩
  | listRides => exact ⟨r, h, rfl, rfl, rfl, rfl, rfl, rfl, rfl, rfl, fun hc => hc⟩
  | reqRide rid sx sy dx dy =>
    cases hfind : s.riders.find? (fun x => x.id == rid) with
    | none =>
      simp only [step, request_ride, hfind]
      exact ⟨r, h, rfl, rfl, rfl, rfl, rfl, rfl, rfl, rfl, fun hc => hc⟩
    | some rider =>
      cases hclosest : find_closest_driver s sx sy with
      | none =>
        simp only [step, request_ride, hfind, hclosest]
        exact ⟨r, h, rfl, rfl, rfl, rfl, rfl, rfl, rfl, rfl, fun hc => hc⟩
      | some c =>
        simp only [step, request_ride, hfind, hclosest]
        refine ⟨r, ?_, rfl, rfl, rfl, rfl, rfl, rfl, rfl, rfl, fun hc => hc⟩
        show (s.rides ++ [_])[i]? = some r
        rw [List.getElem?_append, if_pos hi]
        exact h
  | compRide rid =>
    cases hfind : s.rides.find? (fun x => x.id == rid) with
    | none =>
      simp only [step, complete_ride, hfind]
      exact ⟨r, h, rfl, rfl, rfl, rfl, rfl, rfl, rfl, rfl, fun hc => hc⟩
    | some r0 =>
      cases hc0 : r0.completed with
      | true =>
        simp only [step, complete_ride, hfind]
        rw [if_pos hc0]
        exact ⟨r, h, rfl, rfl, rfl, rfl, rfl, rfl, rfl, rfl, fun hc => hc⟩
      | false =>
        simp only [step, complete_ride, hfind]
        rw [if_neg (by simp [hc0])]
        show ∃ r2, (s.rides.map fun x =>
          if x.id = rid then { x with completed := true } else x)[i]? = some r2 ∧ _
        rw [List.getElem?_map, h, Option.map_some']
        by_cases hr : r.id = rid
        · refine ⟨{ r with completed := true }, by rw [if_pos hr],
            rfl, rfl, rfl, rfl, rfl, rfl, rfl, rfl, fun hc => rfl⟩
        · refine ⟨r, by rw [if_neg hr], rfl, rfl, rfl, rfl, rfl, rfl, rfl, rfl, fun hc => hc⟩

/-- Elimination principle for a successful `request_ride`: it found the
rider, selected a driver, and returned exactly the stored ride record. -/
theorem request_ride_some (s : TaxiApp) (rid : ℕ) (sx sy dx dy : ℚ) (rd : Ride)
    (h : (request_ride s rid sx sy dx dy).1 = some rd) :
    ∃ rider c, s.riders.find? (fun r => r.id == rid) = some rider ∧
      find_closest_driver s sx sy = some c ∧
      rd = ⟨s.ride_id, rider.id, c.id, sx, sy, dx, dy,
        round2 (250 + hypot ((dx : ℝ) - (sx : ℝ)) ((dy : ℝ) - (sy : ℝ)) * 100),
        false⟩ := by
  cases hfind : s.riders.find? (fun r => r.id == rid) with
  | none =>
    simp only [request_ride, hfind] at h
    exact Option.noConfusion h
  | some rider =>
    cases hclosest : find_closest_driver s sx sy with
    | none =>
      simp only [request_ride, hfind, hclosest] at h
      exact Option.noConfusion h
    | some c =>
      simp only [request_ride, hfind, hclosest] at h
      have h2 : some (⟨s.ride_id, rider.id, c.id, sx, sy, dx, dy,
        round2 (250 + hypot ((dx : ℝ) - (sx : ℝ)) ((dy : ℝ) - (sy : ℝ)) * 100),
        false⟩ : Ride) = some rd := h
      exact ⟨rider, c, rfl, rfl, (Option.some.inj h2).symm⟩

/-- The state reached by a successful `request_ride`. -/
theorem request_ride_some_state (s : TaxiApp) (rid : ℕ) (sx sy dx dy : ℚ)
    (rider : Rider) (c : Driver)
    (hfind : s.riders.find? (fun r => r.id == rid) = some rider)
    (hclosest : find_closest_driver s sx sy = some c) :
    request_ride s rid sx sy dx dy =
      (some ⟨s.ride_id, rider.id, c.id, sx, sy, dx, dy,
        round2 (250 + hypot ((dx : ℝ) - (sx : ℝ)) ((dy : ℝ) - (sy : ℝ)) * 100),
        false⟩,
       { s with
         drivers := updateDriver s.drivers c.id fun d => { d with available := false },
         rides := s.rides ++ [⟨s.ride_id, rider.id, c.id, sx, sy, dx, dy,
           round2 (250 + hypot ((dx : ℝ) - (sx : ℝ)) ((dy : ℝ) - (sy : ℝ)) * 100),
           false⟩],
         ride_id := s.ride_id + 1 },
       [Event.rideStarted s.ride_id c.name
         (round2 (250 + hypot ((dx : ℝ) - (sx : ℝ)) ((dy : ℝ) - (sy : ℝ)) * 100))]) := by
  simp only [request_ride, hfind, hclosest]

/-- `request_ride` with an unknown rider id: "Rider not found", no change. -/
theorem request_ride_fail_rider (s : TaxiApp) (rid : ℕ) (sx sy dx dy : ℚ)
    (hfind : s.riders.find? (fun r => r.id == rid) = none) :
    request_ride s rid sx sy dx dy = (none, s, [Event.riderNotFound]) := by
  simp only [request_ride, hfind]

/-- `request_ride` with no available driver: "No available drivers", no
change. -/
theorem request_ride_fail_driver (s : TaxiApp) (rid : ℕ) (sx sy dx dy : ℚ)
    (rider : Rider) (hfind : s.riders.find? (fun r => r.id == rid) = some rider)
    (hclosest : find_closest_driver s sx sy = none) :
    request_ride s rid sx sy dx dy = (none, s, [Event.noAvailableDrivers]) := by
  simp only [request_ride, hfind, hclosest]

/-- `complete_ride` with an unknown ride id: "Ride not found", no change. -/
theorem complete_ride_fail_missing (s : TaxiApp) (rid : ℕ)
    (hfind : s.rides.find? (fun r => r.id == rid) = none) :
    complete_ride s rid = (s, [Event.rideNotFound]) := by
  simp only [complete_ride, hfind]

/-- `complete_ride` on a completed ride: "Ride already completed", no
change. -/
theorem complete_ride_fail_completed (s : TaxiApp) (rid : ℕ) (r0 : Ride)
    (hfind : s.rides.find? (fun r => r.id == rid) = some r0)
    (hc : r0.completed = true) :
    complete_ride s rid = (s, [Event.rideAlreadyCompleted]) := by
  simp only [complete_ride, hfind]
  rw [if_pos hc]

/-- The state reached by a successful `complete_ride`. -/
theorem complete_ride_some_state (s : TaxiApp) (rid : ℕ) (r0 : Ride)
    (hfind : s.rides.find? (fun r => r.id == rid) = some r0)
    (hact : r0.completed = false) :
    complete_ride s rid =
      ({ s with
         rides := s.rides.map fun r =>
           if r.id = rid then { r with completed := true } else r,
         drivers := updateDriver s.drivers r0.driverId
           fun d => { d with available := true, x := r0.dest_x, y := r0.dest_y } },
       [Event.rideCompleted r0.id r0.fare]) := by
  simp only [complete_ride, hfind]
  rw [if_neg (by simp [hact])]

/-- Marking a ride completed commutes with looking it up by id. -/
theorem find?_map_completed (l : List Ride) (rid : ℕ) :
    (l.map fun r => if r.id = rid then { r with completed := true } else r).find?
        (fun r => r.id == rid)
      = (l.find? fun r => r.id == rid).map
        fun r => if r.id = rid then { r with completed := true } else r := by
  rw [List.find?_map]
  have hp : ((fun r : Ride => r.id == rid) ∘
      fun r => if r.id = rid then { r with completed := true } else r)
      = fun r : Ride => r.id == rid := by
    funext r
    by_cases hr : r.id = rid <;> simp [hr]
  rw [hp]

theorem roundHalfEven_intCast (n : ℤ) : roundHalfEven (n : ℝ) = n := by
  unfold roundHalfEven
  rw [Int.fract_intCast]
  rw [if_pos (by norm_num)]
  exact Int.floor_intCast n

theorem round2_350 : round2 350 = 350 := by
  unfold round2
  rw [show (350 : ℝ) * 100 = ((35000 : ℤ) : ℝ) by norm_num, roundHalfEven_intCast]
  norm_num

theorem hypot_one_zero : hypot 1 0 = 1 := by
  unfold hypot
  norm_num

/-- In a state satisfying the invariant, driver ids strictly increase along
the insertion order. -/
theorem inv_ids_lt_after (s : TaxiApp) (h : Inv s) (l₁ l₂ : List Driver)
    (c : Driver) (hdec : s.drivers = l₁ ++ c :: l₂) :
    ∀ d ∈ l₂, c.id < d.id := by
  have hp : (s.drivers.map Driver.id).Pairwise fun a b => a < b := by
    rw [h.drivers_ids]
    exact List.pairwise_lt_range' 1 s.drivers.length
  rw [hdec, List.map_append, List.map_cons] at hp
  obtain ⟨-, hp2, -⟩ := List.pairwise_append.mp hp
  obtain ⟨hhead, -⟩ := List.pairwise_cons.mp hp2
  intro d hd
  exact hhead d.id (List.mem_map.mpr ⟨d, hd, rfl⟩)

/-! ## The claims -/

/-- C1: every successful `requestRide` assigns an available driver whose
Euclidean distance from the start point is minimal among available drivers,
and among drivers at equal minimal distance the first-registered one
(lowest id, first in insertion order) is selected. -/
theorem nearest_driver_selected (s : TaxiApp) (hreach : Reachable s) (rid : ℕ)
    (sx sy dx dy : ℚ) (rd : Ride)
    (hreq : (request_ride s rid sx sy dx dy).1 = some rd) :
    ∃ c ∈ s.drivers, c.id = rd.driverId ∧ c.available = true ∧
      ∀ d ∈ s.drivers, d.available = true →
        driverDistance c sx sy ≤ driverDistance d sx sy ∧
        (driverDistance d sx sy = driverDistance c sx sy → c.id ≤ d.id) := by
  obtain ⟨rider, c, hfind, hclosest, hrd⟩ := request_ride_some s rid sx sy dx dy rd hreq
  obtain ⟨hcmem, hcav, hcmin, l₁, l₂, hdec, hbef⟩ :=
    find_closest_driver_spec s sx sy c hclosest
  have hinv := reachable_inv s hreach
  refine ⟨c, hcmem, by rw [hrd], hcav, ?_⟩
  intro d hd hdav
  refine ⟨driverDistance_le_of_ddist2_le c d sx sy (hcmin d hd hdav), ?_⟩
  intro heq
  have heq2 : ddist2 d sx sy = ddist2 c sx sy :=
    ddist2_eq_of_driverDistance_eq d c sx sy heq
  rw [hdec] at hd
  rcases List.mem_append.mp hd with hd1 | hd2
  · exfalso
    have hlt := hbef d hd1 hdav
    rw [heq2] at hlt
    exact lt_irrefl _ hlt
  · rcases List.mem_cons.mp hd2 with rfl | hd3
    · exact le_refl _
    · exact le_of_lt (inv_ids_lt_after s hinv l₁ l₂ c hdec d hd3)

/-- C2: in every reachable state, the driver of an active ride is
unavailable, no two active rides share a driver, and a successful
`requestRide` never assigns the driver of a still-active ride. -/
theorem driver_exclusivity (s : TaxiApp) (hreach : Reachable s) :
    (∀ r ∈ s.rides, r.completed = false →
      ∀ d ∈ s.drivers, d.id = r.driverId → d.available = false) ∧
    ((activeRides s).Pairwise fun a b => a.driverId ≠ b.driverId) ∧
    ∀ rid sx sy dx dy rd, (request_ride s rid sx sy dx dy).1 = some rd →
      ∀ r ∈ s.rides, r.completed = false → rd.driverId ≠ r.driverId := by
  have hinv := reachable_inv s hreach
  refine ⟨hinv.active_busy, hinv.active_excl, ?_⟩
  intro rid sx sy dx dy rd hreq r hr hract hcon
  obtain ⟨rider, c, hfind, hclosest, hrd⟩ := request_ride_some s rid sx sy dx dy rd hreq
  have hcdid : rd.driverId = c.id := by rw [hrd]
  obtain ⟨hcmem, hcav, -, -⟩ := find_closest_driver_spec s sx sy c hclosest
  have hbusy := hinv.active_busy r hr hract c hcmem (by rw [← hcdid, ← hcon])
  rw [hcav] at hbusy
  cases hbusy

/-- C3: the fare of every stored ride is
`round(250 + tripDistance * 100, 2)` with `tripDistance` the Euclidean
start-to-destination distance; a ride from (0,0) to (1,0) has fare exactly
350; and no operation ever changes a stored fare. -/
theorem fare_policy :
    (∀ s rid sx sy dx dy rd, (request_ride s rid sx sy dx dy).1 = some rd →
      rd.fare = round2 (250 + hypot ((dx : ℝ) - (sx : ℝ)) ((dy : ℝ) - (sy : ℝ)) * 100)) ∧
    (∀ s rid rd, (request_ride s rid 0 0 1 0).1 = some rd → rd.fare = 350) ∧
    ∀ (t : TaxiApp) (o : Op) (i : ℕ) (r : Ride), t.rides[i]? = some r →
      ∃ r2, (step t o).rides[i]? = some r2 ∧ r2.id = r.id ∧ r2.fare = r.fare := by
  have hform : ∀ s rid sx sy dx dy rd, (request_ride s rid sx sy dx dy).1 = some rd →
      rd.fare = round2 (250 + hypot ((dx : ℝ) - (sx : ℝ)) ((dy : ℝ) - (sy : ℝ)) * 100) := by
    intro s rid sx sy dx dy rd hreq
    obtain ⟨rider, c, -, -, hrd⟩ := request_ride_some s rid sx sy dx dy rd hreq
    rw [hrd]
  refine ⟨hform, ?_, ?_⟩
  · intro s rid rd hreq
    rw [hform s rid 0 0 1 0 rd hreq]
    rw [show ((1 : ℚ) : ℝ) - ((0 : ℚ) : ℝ) = 1 by norm_num,
      show ((0 : ℚ) : ℝ) - ((0 : ℚ) : ℝ) = 0 by norm_num, hypot_one_zero]
    rw [show (250 : ℝ) + 1 * 100 = 350 by norm_num]
    exact round2_350
  · intro t o i r h
    obtain ⟨r2, h1, h2, h3, -⟩ := step_rides_pointwise t o i r h
    exact ⟨r2, h1, h2, h3⟩

/-- C4 (amended): each of the four failure conditions produces its own
distinct printed message (event), and failures never flow through an
exception (every operation is a total function returning normally); but
the Python return value itself does not distinguish them — `request_ride`
returns `None` for both of its failure causes and `complete_ride` always
returns `None`. -/
theorem failure_events_distinct :
    (∀ s rid sx sy dx dy, s.riders.find? (fun r => r.id == rid) = none →
      request_ride s rid sx sy dx dy = (none, s, [Event.riderNotFound])) ∧
    (∀ s rid sx sy dx dy rider,
      s.riders.find? (fun r => r.id == rid) = some rider →
      find_closest_driver s sx sy = none →
      request_ride s rid sx sy dx dy = (none, s, [Event.noAvailableDrivers])) ∧
    (∀ s rid, s.rides.find? (fun r => r.id == rid) = none →
      complete_ride s rid = (s, [Event.rideNotFound])) ∧
    (∀ s rid r0, s.rides.find? (fun r => r.id == rid) = some r0 →
      r0.completed = true →
      complete_ride s rid = (s, [Event.rideAlreadyCompleted])) ∧
    ([Event.riderNotFound] ≠ [Event.noAvailableDrivers] ∧
      [Event.riderNotFound] ≠ [Event.rideNotFound] ∧
      [Event.riderNotFound] ≠ [Event.rideAlreadyCompleted] ∧
      [Event.noAvailableDrivers] ≠ [Event.rideNotFound] ∧
      [Event.noAvailableDrivers] ≠ [Event.rideAlreadyCompleted] ∧
      [Event.rideNotFound] ≠ [Event.rideAlreadyCompleted]) := by
  refine ⟨?_, ?_, ?_, ?_, ?_, ?_, ?_, ?_, ?_, ?_⟩
  · intro s rid sx sy dx dy h
    exact request_ride_fail_rider s rid sx sy dx dy h
  · intro s rid sx sy dx dy rider h1 h2
    exact request_ride_fail_driver s rid sx sy dx dy rider h1 h2
  · intro s rid h
    exact complete_ride_fail_missing s rid h
  · intro s rid r0 h1 h2
    exact complete_ride_fail_completed s rid r0 h1 h2
  · intro h
    exact Event.noConfusion (List.cons.inj h).1
  · intro h
    exact Event.noConfusion (List.cons.inj h).1
  · intro h
    exact Event.noConfusion (List.cons.inj h).1
  · intro h
    exact Event.noConfusion (List.cons.inj h).1
  · intro h
    exact Event.noConfusion (List.cons.inj h).1
  · intro h
    exact Event.noConfusion (List.cons.inj h).1

/-- C5: a failed `requestRide` (unknown rider or no available driver) and a
failed `completeRide` (unknown ride or already completed) return the whole
core state unchanged: every map, entity field and counter is identical. -/
theorem failure_preserves_state :
    (∀ s rid sx sy dx dy, (request_ride s rid sx sy dx dy).1 = none →
      (request_ride s rid sx sy dx dy).2.1 = s) ∧
    (∀ s rid, s.rides.find? (fun r => r.id == rid) = none →
      (complete_ride s rid).1 = s) ∧
    ∀ s rid r0, s.rides.find? (fun r => r.id == rid) = some r0 →
      r0.completed = true → (complete_ride s rid).1 = s := by
  refine ⟨?_, ?_, ?_⟩
  · intro s rid sx sy dx dy h
    cases hfind : s.riders.find? (fun r => r.id == rid) with
    | none => rw [request_ride_fail_rider s rid sx sy dx dy hfind]
    | some rider =>
      cases hclosest : find_closest_driver s sx sy with
      | none => rw [request_ride_fail_driver s rid sx sy dx dy rider hfind hclosest]
      | some c =>
        rw [request_ride_some_state s rid sx sy dx dy rider c hfind hclosest] at h
        exact Option.noConfusion h
  · intro s rid h
    rw [complete_ride_fail_missing s rid h]
  · intro s rid r0 h1 h2
    rw [complete_ride_fail_completed s rid r0 h1 h2]

/-- C6: completing a stored active ride succeeds (emits the completion
event); completing it again fails with the already-completed message and
changes nothing; and a completed ride never reverts under any operation. -/
theorem complete_ride_idempotence_signal (s : TaxiApp) (rid : ℕ) (r0 : Ride)
    (hfind : s.rides.find? (fun r => r.id == rid) = some r0)
    (hact : r0.completed = false) :
    (complete_ride s rid).2 = [Event.rideCompleted r0.id r0.fare] ∧
    (complete_ride (complete_ride s rid).1 rid).2 = [Event.rideAlreadyCompleted] ∧
    (complete_ride (complete_ride s rid).1 rid).1 = (complete_ride s rid).1 ∧
    ∀ (t : TaxiApp) (o : Op) (i : ℕ) (x : Ride), t.rides[i]? = some x →
      x.completed = true →
      ∃ x2, (step t o).rides[i]? = some x2 ∧ x2.id = x.id ∧ x2.completed = true := by
  have hr0id : r0.id = rid := by simpa using List.find?_some hfind
  have hstate := complete_ride_some_state s rid r0 hfind hact
  have hfind2 : (complete_ride s rid).1.rides.find? (fun r => r.id == rid)
      = some { r0 with completed := true } := by
    rw [hstate]
    show (s.rides.map fun r =>
      if r.id = rid then { r with completed := true } else r).find?
      (fun r => r.id == rid) = _
    rw [find?_map_completed, hfind, Option.map_some', if_pos hr0id]
  refine ⟨by rw [hstate], ?_, ?_, ?_⟩
  · rw [complete_ride_fail_completed (complete_ride s rid).1 rid
      { r0 with completed := true } hfind2 rfl]
  · rw [complete_ride_fail_completed (complete_ride s rid).1 rid
      { r0 with completed := true } hfind2 rfl]
  · intro t o i x hx hxc
    obtain ⟨x2, h1, h2, -, -, -, -, -, -, -, h10⟩ := step_rides_pointwise t o i x hx
    exact ⟨x2, h1, h2, h10 hxc⟩

/-- C7: a successful `completeRide` marks the ride completed, makes its
driver available again and moves the driver to the ride's destination. -/
theorem complete_ride_releases_driver (s : TaxiApp) (rid : ℕ) (r0 : Ride)
    (hfind : s.rides.find? (fun r => r.id == rid) = some r0)
    (hact : r0.completed = false) :
    (complete_ride s rid).1.rides.find? (fun r => r.id == rid)
      = some { r0 with completed := true } ∧
    (complete_ride s rid).2 = [Event.rideCompleted r0.id r0.fare] ∧
    ∀ d ∈ (complete_ride s rid).1.drivers, d.id = r0.driverId →
      d.available = true ∧ d.x = r0.dest_x ∧ d.y = r0.dest_y := by
  have hr0id : r0.id = rid := by simpa using List.find?_some hfind
  have hstate := complete_ride_some_state s rid r0 hfind hact
  refine ⟨?_, by rw [hstate], ?_⟩
  · rw [hstate]
    show (s.rides.map fun r =>
      if r.id = rid then { r with completed := true } else r).find?
      (fun r => r.id == rid) = _
    rw [find?_map_completed, hfind, Option.map_some', if_pos hr0id]
  · rw [hstate]
    intro d hd hdid
    show d.available = true ∧ d.x = r0.dest_x ∧ d.y = r0.dest_y
    obtain ⟨d0, hd0, hd0e⟩ := updateDriver_mem s.drivers r0.driverId
      (fun d => { d with available := true, x := r0.dest_x, y := r0.dest_y }) d hd
    by_cases hd0i : d0.id = r0.driverId
    · rw [hd0e, if_pos hd0i]
      exact ⟨rfl, rfl, rfl⟩
    · exfalso
      have hdd0 : d = d0 := by rw [hd0e, if_neg hd0i]
      rw [hdd0] at hdid
      exact hd0i hdid

/-- C8: in every reachable state ids are exactly 1, 2, …, per entity type in
insertion order (sequential from 1, strictly increasing, unique, never
reused), each counter is one past its collection, and registering one
entity type leaves the other two counters untouched. -/
theorem ids_sequential (s : TaxiApp) (hreach : Reachable s) :
    s.riders.map Rider.id = List.range' 1 s.riders.length ∧
    s.drivers.map Driver.id = List.range' 1 s.drivers.length ∧
    s.rides.map Ride.id = List.range' 1 s.rides.length ∧
    s.rider_id = s.riders.length + 1 ∧
    s.driver_id = s.drivers.length + 1 ∧
    s.ride_id = s.rides.length + 1 ∧
    (∀ n, (register_rider s n).1.id = s.rider_id ∧
      (register_rider s n).2.1.driver_id = s.driver_id ∧
      (register_rider s n).2.1.ride_id = s.ride_id) ∧
    ∀ n x y, (register_driver s n x y).1.id = s.driver_id ∧
      (register_driver s n x y).2.1.rider_id = s.rider_id ∧
      (register_driver s n x y).2.1.ride_id = s.ride_id := by
  have hinv := reachable_inv s hreach
  exact ⟨hinv.riders_ids, hinv.drivers_ids, hinv.rides_ids, hinv.rider_ctr,
    hinv.driver_ctr, hinv.ride_ctr, fun n => ⟨rfl, rfl, rfl⟩,
    fun n x y => ⟨rfl, rfl, rfl⟩⟩

/-- C9: `listRides` mutates nothing and yields one summary per stored ride,
in order, carrying the ride id, the status string ("completed" exactly for
completed rides, "active" otherwise) and the two names; the listed ride ids
are strictly increasing. -/
theorem list_rides_spec (s : TaxiApp) (hreach : Reachable s) :
    (list_rides s).1 = s ∧
    (list_rides s).2 = s.rides.map (fun r => Event.rideListed r.id
      (if r.completed then "completed" else "active")
      (riderNameOf s r.riderId) (driverNameOf s r.driverId)) ∧
    ((list_rides s).2.map listedRideId).Pairwise fun a b => a < b := by
  refine ⟨rfl, rfl, ?_⟩
  show ((s.rides.map fun r => Event.rideListed r.id
      (if r.completed then "completed" else "active")
      (riderNameOf s r.riderId) (driverNameOf s r.driverId)).map
      listedRideId).Pairwise fun a b => a < b
  rw [List.map_map]
  have hcomp : (listedRideId ∘ fun r => Event.rideListed r.id
      (if r.completed then "completed" else "active")
      (riderNameOf s r.riderId) (driverNameOf s r.driverId)) = Ride.id :=
    funext fun r => rfl
  rw [hcomp, (reachable_inv s hreach).rides_ids]
  exact List.pairwise_lt_range' 1 s.rides.length

/-- C10: `requestRide` checks no rider exclusivity: whenever the rider id
exists and any driver is available it succeeds, regardless of the rides
already stored (in particular even if that rider already has active
rides). -/
theorem request_ride_ignores_existing_rides (s : TaxiApp) (rid : ℕ)
    (sx sy dx dy : ℚ)
    (hrider : ∃ p ∈ s.riders, p.id = rid)
    (hdriver : ∃ d ∈ s.drivers, d.available = true) :
    ∃ rd, (request_ride s rid sx sy dx dy).1 = some rd ∧
      rd.riderId = rid ∧ rd.id = s.ride_id ∧ rd.completed = false := by
  obtain ⟨p, hp, hpid⟩ := hrider
  have hfindSome : (s.riders.find? fun r => r.id == rid).isSome :=
    List.find?_isSome.mpr ⟨p, hp, by simp [hpid]⟩
  cases hfind : s.riders.find? (fun r => r.id == rid) with
  | none =>
    rw [hfind] at hfindSome
    exact Bool.noConfusion hfindSome
  | some rider =>
    obtain ⟨d, hd, hdav⟩ := hdriver
    obtain ⟨c, hclosest⟩ := find_closest_driver_isSome s sx sy d hd hdav
    rw [request_ride_some_state s rid sx sy dx dy rider c hfind hclosest]
    refine ⟨_, rfl, ?_, rfl, rfl⟩
    simpa using List.find?_some hfind

/-! ## Evaluation of the example states -/

theorem exS1_eq : exS1 = ⟨[], [⟨1, "Dave", 0, 0, true⟩], [], 1, 2, 1⟩ := rfl

theorem exS2_eq : exS2 = ⟨[⟨1, "Rita"⟩], [], [], 2, 1, 1⟩ := rfl

theorem exS3_eq : exS3 = ⟨[⟨1, "Rita"⟩],
    [⟨1, "Near", 0, 0, true⟩, ⟨2, "Far", 10, 10, true⟩], [], 2, 3, 1⟩ := rfl

theorem exS3_riders_find :
    exS3.riders.find? (fun r => r.id == 1) = some ⟨1, "Rita"⟩ := rfl

theorem exS3_closest_11 :
    find_closest_driver exS3 1 1 = some ⟨1, "Near", 0, 0, true⟩ := by
  show (findClosestLoop 1 1
    [⟨1, "Near", 0, 0, true⟩, ⟨2, "Far", 10, 10, true⟩] none).map Prod.fst = _
  rw [findClosestLoop, if_neg (by simp), findClosestLoop, if_neg (by simp),
    if_neg (by norm_num [ddist2]), findClosestLoop]
  rfl

theorem exS3_closest_00 :
    find_closest_driver exS3 0 0 = some ⟨1, "Near", 0, 0, true⟩ := by
  show (findClosestLoop 0 0
    [⟨1, "Near", 0, 0, true⟩, ⟨2, "Far", 10, 10, true⟩] none).map Prod.fst = _
  rw [findClosestLoop, if_neg (by simp), findClosestLoop, if_neg (by simp),
    if_neg (by norm_num [ddist2]), findClosestLoop]
  rfl

theorem exS3_request_11 : (request_ride exS3 1 1 1 5 5).1 = some exRide := by
  rw [request_ride_some_state exS3 1 1 1 5 5 ⟨1, "Rita"⟩ ⟨1, "Near", 0, 0, true⟩
    exS3_riders_find exS3_closest_11]
  rfl

theorem exS3_request_00 : (request_ride exS3 1 0 0 1 0).1
    = some ⟨1, 1, 1, 0, 0, 1, 0,
      round2 (250 + hypot (((1 : ℚ) : ℝ) - ((0 : ℚ) : ℝ))
        (((0 : ℚ) : ℝ) - ((0 : ℚ) : ℝ)) * 100), false⟩ := by
  rw [request_ride_some_state exS3 1 0 0 1 0 ⟨1, "Rita"⟩ ⟨1, "Near", 0, 0, true⟩
    exS3_riders_find exS3_closest_00]
  rfl

theorem exS4_eq : exS4 = ⟨[⟨1, "Rita"⟩],
    [⟨1, "Near", 0, 0, false⟩, ⟨2, "Far", 10, 10, true⟩], [exRide], 2, 3, 2⟩ := by
  show (request_ride exS3 1 1 1 5 5).2.1 = _
  rw [request_ride_some_state exS3 1 1 1 5 5 ⟨1, "Rita"⟩ ⟨1, "Near", 0, 0, true⟩
    exS3_riders_find exS3_closest_11]
  rfl

theorem exS4_rides_find :
    exS4.rides.find? (fun r => r.id == 1) = some exRide := by
  rw [exS4_eq]
  rfl

theorem exS4_complete_find :
    (complete_ride exS4 1).1.rides.find? (fun r => r.id == 1)
      = some ⟨1, 1, 1, 1, 1, 5, 5, exFare, true⟩ := by
  rw [complete_ride_some_state exS4 1 exRide exS4_rides_find rfl]
  show (exS4.rides.map fun r =>
    if r.id = 1 then { r with completed := true } else r).find?
    (fun r => r.id == 1) = _
  rw [find?_map_completed, exS4_rides_find, Option.map_some']
  rfl

theorem reach_exS3 : Reachable exS3 :=
  Reachable.step _ (Op.regDriver "Far" 10 10)
    (Reachable.step _ (Op.regDriver "Near" 0 0)
      (Reachable.step _ (Op.regRider "Rita") Reachable.init))

theorem reach_exS4 : Reachable exS4 :=
  Reachable.step _ (Op.reqRide 1 1 1 5 5) reach_exS3

theorem reach_exS6 : Reachable exS6 :=
  Reachable.step _ (Op.compRide 1)
    (Reachable.step _ (Op.reqRide 1 1 1 7 7) reach_exS4)

/-- C4 counterexample: two requests failing for the two different causes
(unknown rider in `exS1`, no available driver in `exS2`) return the same
value `None` and leave the state unchanged; only the printed messages
(events) differ, so the return value at the call surface does not
distinguish the failure causes. -/
theorem request_failure_results_agree :
    (request_ride exS1 1 0 0 1 1).1 = (request_ride exS2 1 0 0 1 1).1 ∧
    (request_ride exS1 1 0 0 1 1).2.1 = exS1 ∧
    (request_ride exS2 1 0 0 1 1).2.1 = exS2 ∧
    (request_ride exS1 1 0 0 1 1).2.2 = [Event.riderNotFound] ∧
    (request_ride exS2 1 0 0 1 1).2.2 = [Event.noAvailableDrivers] ∧
    Event.riderNotFound ≠ Event.noAvailableDrivers := by
  have h1 := request_ride_fail_rider exS1 1 0 0 1 1 rfl
  have h2 := request_ride_fail_driver exS2 1 0 0 1 1 ⟨1, "Rita"⟩ rfl rfl
  exact ⟨by rw [h1, h2], by rw [h1], by rw [h2], by rw [h1], by rw [h2],
    fun h => Event.noConfusion h⟩

/-! ## Witnesses -/

theorem nearest_driver_selected_witness :
    (request_ride exS3 1 1 1 5 5).1 = some exRide ∧ exRide.driverId = 1 ∧
    ∃ c ∈ exS3.drivers, c.id = exRide.driverId ∧ c.available = true ∧
      ∀ d ∈ exS3.drivers, d.available = true →
        driverDistance c 1 1 ≤ driverDistance d 1 1 ∧
        (driverDistance d 1 1 = driverDistance c 1 1 → c.id ≤ d.id) :=
  ⟨exS3_request_11, rfl,
    nearest_driver_selected exS3 reach_exS3 1 1 1 5 5 exRide exS3_request_11⟩

theorem driver_exclusivity_witness :
    (∀ r ∈ exS4.rides, r.completed = false →
      ∀ d ∈ exS4.drivers, d.id = r.driverId → d.available = false) ∧
    ((activeRides exS4).Pairwise fun a b => a.driverId ≠ b.driverId) ∧
    ∀ rid sx sy dx dy rd, (request_ride exS4 rid sx sy dx dy).1 = some rd →
      ∀ r ∈ exS4.rides, r.completed = false → rd.driverId ≠ r.driverId :=
  driver_exclusivity exS4 reach_exS4

theorem fare_policy_witness :
    ∃ rd, (request_ride exS3 1 0 0 1 0).1 = some rd ∧ rd.fare = 350 :=
  ⟨_, exS3_request_00, fare_policy.2.1 exS3 1 _ exS3_request_00⟩

theorem failure_events_distinct_witness :
    request_ride exS1 1 0 0 1 1 = (none, exS1, [Event.riderNotFound]) ∧
    request_ride exS2 1 0 0 1 1 = (none, exS2, [Event.noAvailableDrivers]) ∧
    complete_ride TaxiApp.init 1 = (TaxiApp.init, [Event.rideNotFound]) ∧
    complete_ride (complete_ride exS4 1).1 1
      = ((complete_ride exS4 1).1, [Event.rideAlreadyCompleted]) :=
  ⟨failure_events_distinct.1 exS1 1 0 0 1 1 rfl,
   failure_events_distinct.2.1 exS2 1 0 0 1 1 ⟨1, "Rita"⟩ rfl rfl,
   failure_events_distinct.2.2.1 TaxiApp.init 1 rfl,
   failure_events_distinct.2.2.2.1 (complete_ride exS4 1).1 1
     ⟨1, 1, 1, 1, 1, 5, 5, exFare, true⟩ exS4_complete_find rfl⟩

theorem failure_preserves_state_witness :
    (request_ride exS1 1 0 0 1 1).2.1 = exS1 ∧
    (complete_ride TaxiApp.init 1).1 = TaxiApp.init ∧
    (complete_ride (complete_ride exS4 1).1 1).1 = (complete_ride exS4 1).1 :=
  ⟨failure_preserves_state.1 exS1 1 0 0 1 1
      (by rw [request_ride_fail_rider exS1 1 0 0 1 1 rfl]),
   failure_preserves_state.2.1 TaxiApp.init 1 rfl,
   failure_preserves_state.2.2 (complete_ride exS4 1).1 1
     ⟨1, 1, 1, 1, 1, 5, 5, exFare, true⟩ exS4_complete_find rfl⟩

theorem complete_ride_idempotence_signal_witness :
    (complete_ride exS4 1).2 = [Event.rideCompleted exRide.id exRide.fare] ∧
    (complete_ride (complete_ride exS4 1).1 1).2 = [Event.rideAlreadyCompleted] ∧
    (complete_ride (complete_ride exS4 1).1 1).1 = (complete_ride exS4 1).1 ∧
    ∀ (t : TaxiApp) (o : Op) (i : ℕ) (x : Ride), t.rides[i]? = some x →
      x.completed = true →
      ∃ x2, (step t o).rides[i]? = some x2 ∧ x2.id = x.id ∧ x2.completed = true :=
  complete_ride_idempotence_signal exS4 1 exRide exS4_rides_find rfl

theorem complete_ride_releases_driver_witness :
    (complete_ride exS4 1).1.rides.find? (fun r => r.id == 1)
      = some { exRide with completed := true } ∧
    (complete_ride exS4 1).2 = [Event.rideCompleted exRide.id exRide.fare] ∧
    ∀ d ∈ (complete_ride exS4 1).1.drivers, d.id = exRide.driverId →
      d.available = true ∧ d.x = exRide.dest_x ∧ d.y = exRide.dest_y :=
  complete_ride_releases_driver exS4 1 exRide exS4_rides_find rfl

theorem ids_sequential_witness :
    exS3.riders.map Rider.id = List.range' 1 exS3.riders.length ∧
    exS3.drivers.map Driver.id = List.range' 1 exS3.drivers.length ∧
    exS3.rides.map Ride.id = List.range' 1 exS3.rides.length ∧
    exS3.rider_id = exS3.riders.length + 1 ∧
    exS3.driver_id = exS3.drivers.length + 1 ∧
    exS3.ride_id = exS3.rides.length + 1 ∧
    (∀ n, (register_rider exS3 n).1.id = exS3.rider_id ∧
      (register_rider exS3 n).2.1.driver_id = exS3.driver_id ∧
      (register_rider exS3 n).2.1.ride_id = exS3.ride_id) ∧
    ∀ n x y, (register_driver exS3 n x y).1.id = exS3.driver_id ∧
      (register_driver exS3 n x y).2.1.rider_id = exS3.rider_id ∧
      (register_driver exS3 n x y).2.1.ride_id = exS3.ride_id :=
  ids_sequential exS3 reach_exS3

theorem list_rides_spec_witness :
    (list_rides exS6).1 = exS6 ∧
    (list_rides exS6).2 = exS6.rides.map (fun r => Event.rideListed r.id
      (if r.completed then "completed" else "active")
      (riderNameOf exS6 r.riderId) (driverNameOf exS6 r.driverId)) ∧
    ((list_rides exS6).2.map listedRideId).Pairwise fun a b => a < b :=
  list_rides_spec exS6 reach_exS6

theorem request_ride_ignores_existing_rides_witness :
    ∃ rd, (request_ride exS4 1 1 1 9 9).1 = some rd ∧
      rd.riderId = 1 ∧ rd.id = exS4.ride_id ∧ rd.completed = false :=
  request_ride_ignores_existing_rides exS4 1 1 1 9 9
    ⟨⟨1, "Rita"⟩, by rw [exS4_eq]; exact List.mem_singleton.mpr rfl, rfl⟩
    ⟨⟨2, "Far", 10, 10, true⟩,
      by rw [exS4_eq]; exact List.mem_cons.mpr (Or.inr (List.mem_singleton.mpr rfl)),
      rfl⟩

end TaxiProgram
